import Mathlib

/-!
Verification development for the iaiken Jupyter kernel.

This file gives a shallow embedding, in Lean, of the parts of the
repository that the checked properties talk about:

* the REPL evaluator of crates/aiken-repl/src/evaluator/mod.rs
  (definition-name scanning, redefinition removal, the commit logic of
  eval_definitions);
* the wire codec of crates/iaiken/src/messages/wire.rs and crypto.rs
  (delim_index, verify_incoming_hmac, from_multipart,
  to_envelope_multipart), together with the legacy copy kept under
  src/messages/mod.rs;
* the shell channel state machine of crates/iaiken/src/connection/shell.rs
  and shell/execute.rs (execution counter, busy/idle bracket, silent
  flag, error path, user expressions);
* the control channel state machine of crates/iaiken/src/connection/control.rs.

External collaborators (the Aiken compiler, HMAC-SHA256, serde_json, the
tokio runtime and zeromq sockets) are modelled as parameters or as
idealized codecs, following the contracts stated for them in the
repository; everything written by the repository itself is translated
line by line from the Rust source.

Text and byte strings are modelled as lists of characters so that every
definition computes by structural recursion.
-/

/-- Rust strings and byte strings are modelled as character lists. -/
abbrev Str := List Char

/-- Literal conversion from a Lean string to the model type. -/
def str (s : String) : Str := s.toList

namespace Rs

/-- Model of str::split on a single separator character: splitting the
empty string yields one empty piece, a trailing separator yields a
trailing empty piece, exactly as in Rust. -/
def split (sep : Char) : Str → List Str
  | [] => [[]]
  | c :: cs =>
    let r := split sep cs
    if c = sep then [] :: r
    else
      match r with
      | [] => [[c]]
      | x :: xs => (c :: x) :: xs

/-- Model of str::lines restricted to LF separators: split on the newline
character, dropping one trailing empty piece (Rust yields no final empty
line for a trailing newline, and yields nothing for the empty string). -/
def lines (s : Str) : List Str :=
  let ps := split '\n' s
  if ps.getLast? = some [] then ps.dropLast else ps

/-- Model of str::trim_start for ASCII whitespace. -/
def trimLeft (s : Str) : Str := s.dropWhile Char.isWhitespace

/-- Model of str::trim for ASCII whitespace. -/
def trim (s : Str) : Str :=
  ((s.dropWhile Char.isWhitespace).reverse.dropWhile Char.isWhitespace).reverse

/-- Model of str::starts_with for a literal pattern. -/
def startsWith (s pat : Str) : Bool := pat.isPrefixOf s

/-- Model of split(c).next().unwrap(): the piece before the first
occurrence of the character, or the whole string when absent. -/
def upTo (c : Char) (s : Str) : Str := s.takeWhile (fun d => d ≠ c)

/-- Model of split_whitespace().next(): first whitespace-separated token,
None when the string is all whitespace. -/
def firstToken (s : Str) : Option Str :=
  let t := (trimLeft s).takeWhile (fun c => !c.isWhitespace)
  if t.isEmpty then none else some t

/-- Model of str::contains for a substring pattern. -/
def containsSub (hay needle : Str) : Bool :=
  match hay with
  | [] => needle.isEmpty
  | _ :: hs => needle.isPrefixOf hay || containsSub hs needle

/-- Model of slice join on strings. -/
def intercalate (sep : Str) : List Str → Str
  | [] => []
  | [x] => x
  | x :: xs => x ++ sep ++ intercalate sep xs

end Rs

/-! ### Evaluator model: crates/aiken-repl/src/evaluator/mod.rs -/

/-- extract_function_name: name before the parenthesis after a fn or
pub fn keyword, trimmed; None when the line starts with neither. -/
def extract_function_name (line : Str) : Option Str :=
  if Rs.startsWith line (str "pub fn ") then
    some (Rs.trim (Rs.upTo '(' (line.drop 7)))
  else if Rs.startsWith line (str "fn ") then
    some (Rs.trim (Rs.upTo '(' (line.drop 3)))
  else
    none

/-- extract_constant_name: first whitespace token after a const or
pub const keyword; None when the line starts with neither. -/
def extract_constant_name (line : Str) : Option Str :=
  if Rs.startsWith line (str "pub const ") then
    (Rs.firstToken (line.drop 10)).map Rs.trim
  else if Rs.startsWith line (str "const ") then
    (Rs.firstToken (line.drop 6)).map Rs.trim
  else
    none

/-- extract_type_name: first whitespace token after a type or pub type
keyword; None when the line starts with neither. -/
def extract_type_name (line : Str) : Option Str :=
  if Rs.startsWith line (str "pub type ") then
    (Rs.firstToken (line.drop 9)).map Rs.trim
  else if Rs.startsWith line (str "type ") then
    (Rs.firstToken (line.drop 5)).map Rs.trim
  else
    none

/-- Definition keywords recognized by looks_like_expression. -/
def defKeywords : List Str :=
  [str "fn ", str "pub fn", str "type ", str "pub type", str "const ",
   str "pub const", str "use ", str "import ", str "test ", str "validator"]

/-- looks_like_expression: text starting with a definition keyword is not
an expression; multi-line text containing a definition keyword anywhere
is not an expression; everything else is. -/
def looks_like_expression (code : Str) : Bool :=
  let trimmed := Rs.trim code
  if defKeywords.any (fun kw => Rs.startsWith trimmed kw) then
    false
  else if trimmed.contains '\n' &&
      defKeywords.any (fun kw => Rs.containsSub trimmed kw) then
    false
  else
    true

/-- DefinitionNames: the three name sets tracked while scanning a
submission, modelled as duplicate-free lists standing for HashSets. -/
structure DefinitionNames where
  functions : List Str
  constants : List Str
  types : List Str
deriving Repr, DecidableEq

/-- Empty collection of definition names. -/
def DefinitionNames.empty : DefinitionNames := ⟨[], [], []⟩

/-- HashSet::insert modelled on lists: add the name unless present. -/
def insertName (n : Str) (l : List Str) : List Str :=
  if l.contains n then l else l ++ [n]

/-- collect_definition_names: scan every line of the submission, trimmed,
for function, constant and type declaration names. -/
def collect_definition_names (code : Str) : DefinitionNames :=
  (Rs.lines code).foldl
    (fun names line =>
      let line := Rs.trim line
      let names :=
        match extract_function_name line with
        | some f => { names with functions := insertName f names.functions }
        | none => names
      let names :=
        match extract_constant_name line with
        | some c => { names with constants := insertName c names.constants }
        | none => names
      match extract_type_name line with
      | some t => { names with types := insertName t names.types }
      | none => names)
    DefinitionNames.empty

/-- Whether a (trimmed) line opens a definition whose name collides with
the new names, in the source order: function, then constant, then type. -/
def shouldRemove (names : DefinitionNames) (trimmed : Str) : Bool :=
  match extract_function_name trimmed with
  | some f => names.functions.contains f
  | none =>
    match extract_constant_name trimmed with
    | some c => names.constants.contains c
    | none =>
      match extract_type_name trimmed with
      | some t => names.types.contains t
      | none => false

/-- Stop condition of the inner skip loop of remove_existing_definitions:
a trimmed line that is nonempty, does not open with whitespace or a
closing brace, and starts a new top-level declaration. -/
def stopsSkipping (t : Str) : Bool :=
  !t.isEmpty && !Rs.startsWith t (str " ") && !Rs.startsWith t (str "\t") &&
    !Rs.startsWith t (str "\x7d") &&
    (Rs.startsWith t (str "pub ") || Rs.startsWith t (str "const ") ||
     Rs.startsWith t (str "fn ") || Rs.startsWith t (str "type ") ||
     Rs.startsWith t (str "use "))

/-- Nested while loops of remove_existing_definitions, restructured as a
single structural recursion over the lines with a flag recording whether
the inner skip loop is active. A line opening a colliding definition is
dropped and turns skipping on; while skipping, lines are dropped until
one satisfies the stop condition, and that stop line is then re-examined
exactly as the outer loop re-examines it in the source. -/
def removeLines (names : DefinitionNames) (skipping : Bool) : List Str → List Str
  | [] => []
  | l :: ls =>
    let t := Rs.trim l
    if skipping && !stopsSkipping t then
      removeLines names true ls
    else if shouldRemove names t then
      removeLines names true ls
    else
      l :: removeLines names false ls

/-- remove_existing_definitions: filter the accumulated text line by line
and re-join with newlines. -/
def remove_existing_definitions (definitions : Str)
    (newNames : DefinitionNames) : Str :=
  Rs.intercalate (str "\n") (removeLines newNames false (Rs.lines definitions))

/-- ReplEvaluator state: the accumulated definitions text and the counter
used to synthesize unique wrapper names (the temporary directory and the
Plutus version carry no session state relevant here). -/
structure ReplState where
  definitions : Str
  eval_counter : Nat
deriving Repr, DecidableEq

/-- Fresh evaluator: empty text, counter zero. -/
def ReplState.new : ReplState := ⟨[], 0⟩

/-- eval_definitions, parametrized by the external compile-only type
check of the Evaluation Engine (create_temp_project followed by
project.check): collect the names declared by the submission, remove
colliding previous definitions from the accumulated text, append the new
text, type check the combined source, and commit the combined source only
when the check passes. The Bool reports success. Note that the removal
pass has already reassigned the accumulated text before the check runs,
exactly as remove_existing_definitions assigns self.definitions in the
source. -/
def eval_definitions (check : Str → Bool) (st : ReplState)
    (code : Str) : ReplState × Bool :=
  let new_names := collect_definition_names code
  let removed := remove_existing_definitions st.definitions new_names
  let new_definitions := removed ++ str "\n\n" ++ code
  if check new_definitions then
    ({ st with definitions := new_definitions }, true)
  else
    ({ st with definitions := removed }, false)

/-! ### C1: commit behaviour of eval_definitions on type-check failure -/

/-- Auxiliary: when no line of the text opens a definition colliding with
the new names, the removal pass keeps every line. -/
theorem removeLines_id (names : DefinitionNames) (ls : List Str)
    (h : ∀ l ∈ ls, shouldRemove names (Rs.trim l) = false) :
    removeLines names false ls = ls := by
  induction ls with
  | nil => rfl
  | cons l ls ih =>
    simp only [removeLines, Bool.false_and, Bool.false_eq_true, if_neg,
      h l (List.mem_cons_self l ls), if_false]
    exact congrArg (l :: ·) (ih fun x hx => h x (List.mem_cons_of_mem l hx))

/-- C1, counterexample: with one previously accepted definition
const x = 1 in the session, submitting the definitions block
const x = ) whose combined source fails the compilation-only check
leaves the session with its accumulated text changed: the old
definition of x has already been removed by the redefinition pass, so
the failed submission is not atomic. -/
theorem eval_definitions_not_atomic :
    (eval_definitions (fun _ => false) ⟨str "\n\nconst x = 1", 0⟩
        (str "const x = )")).2 = false ∧
    (eval_definitions (fun _ => false) ⟨str "\n\nconst x = 1", 0⟩
        (str "const x = )")).1 ≠ ⟨str "\n\nconst x = 1", 0⟩ := by
  decide

/-- C1, amended: when the compilation-only check of the combined source
fails, eval_definitions does not append the new text and does not touch
the wrapper-name counter, but the accumulated text has already been
rewritten by the redefinition-removal pass; in particular the session is
left exactly unchanged only when no line of the accumulated text opens a
definition colliding with a name declared by the submission and the
lines of the text re-join to the original text. -/
theorem eval_definitions_failure_state (check : Str → Bool) (st : ReplState)
    (code : Str)
    (hfail : check (remove_existing_definitions st.definitions
        (collect_definition_names code) ++ str "\n\n" ++ code) = false) :
    eval_definitions check st code =
      (ReplState.mk (remove_existing_definitions st.definitions
        (collect_definition_names code)) st.eval_counter, false) ∧
    ((∀ l ∈ Rs.lines st.definitions,
        shouldRemove (collect_definition_names code) (Rs.trim l) = false) →
      Rs.intercalate (str "\n") (Rs.lines st.definitions) = st.definitions →
      (eval_definitions check st code).1 = st) := by
  constructor
  · simp only [eval_definitions, hfail, if_false, Bool.false_eq_true]
  · intro hno hjoin
    simp only [eval_definitions, hfail, if_false, Bool.false_eq_true]
    have : remove_existing_definitions st.definitions
        (collect_definition_names code) = st.definitions := by
      unfold remove_existing_definitions
      rw [removeLines_id _ _ hno, hjoin]
    simp [this]

/-- C1, witness: a failing submission against a session holding only
pub const y = 1 (no name collision) leaves the session unchanged. -/
theorem eval_definitions_failure_state_witness :
    (eval_definitions (fun _ => false) ⟨str "pub const y = 1", 3⟩
        (str "const x = )")).1 = ⟨str "pub const y = 1", 3⟩ :=
  (eval_definitions_failure_state (fun _ => false) ⟨str "pub const y = 1", 3⟩
      (str "const x = )") (by decide)).2 (by decide) (by decide)

/-! ### Wire codec model: crates/iaiken/src/messages/wire.rs and crypto.rs -/

/-- Minimal JSON value model for serde_json::Value metadata. -/
inductive Json where
  | null
  | bool (b : Bool)
  | num (n : Int)
  | string (s : Str)
  | arr (xs : List Json)
  | obj (fields : List (Str × Json))
deriving Repr

/-- MessageHeader: crates/iaiken/src/messages/mod.rs. -/
structure MessageHeader where
  msg_id : Str
  session : Str
  username : Str
  date : Str
  msg_type : Str
  version : Str
deriving Repr, DecidableEq

/-- JupyterMessage: the decoded envelope, generic in the content type. -/
structure JupyterMessage (T : Type) where
  header : MessageHeader
  parent_header : Option MessageHeader
  metadata : Json
  content : T
deriving Repr

/-- Wire frame model. A frame is a byte string; frames produced by
serde_json from typed values are kept symbolic (the byte text of a
serialized header, of the JSON null for a missing parent header, of a
metadata value, of a content value), which encodes the serde_json
round-trip contract the spec assumes of the external serializer.
Identity, delimiter and signature frames are literal byte strings. -/
inductive Frame (T : Type) where
  | raw (s : Str)
  | hdr (h : MessageHeader)
  | pnull
  | meta (j : Json)
  | cont (c : T)
deriving Repr

/-- Byte equality of a frame against a literal byte string: only literal
frames can equal a literal (serde output of a struct is never the
delimiter marker, never empty, never the two-byte empty object). -/
def Frame.isRaw {T : Type} (f : Frame T) (s : Str) : Bool :=
  match f with
  | .raw t => t == s
  | _ => false

/-- UTF-8 text of a frame, as read by std str::from_utf8: available for
literal frames, not inspected by the model for serde-produced frames. -/
def Frame.text? {T : Type} : Frame T → Option Str
  | .raw s => some s
  | _ => none

/-- serde_json::from_slice::<MessageHeader>: succeeds exactly on the
serialized bytes of a header; in particular the bytes null of a missing
parent do not deserialize into the header struct. -/
def headerOfFrame {T : Type} : Frame T → Option MessageHeader
  | .hdr h => some h
  | _ => none

/-- serde_json::from_slice::<Value>: succeeds on serialized JSON. -/
def jsonOfFrame {T : Type} : Frame T → Option Json
  | .meta j => some j
  | _ => none

/-- serde_json::from_slice::<T> for the content type. -/
def contentOfFrame {T : Type} : Frame T → Option T
  | .cont c => some c
  | _ => none

/-- Iterator::position on a list. -/
def position {α : Type} (p : α → Bool) : List α → Option Nat
  | [] => none
  | a :: as => if p a then some 0 else (position p as).map (· + 1)

/-- delim_index on raw byte frames (wire.rs line 19): index of the first
frame equal to the delimiter marker. -/
def delim_index (frames : List Str) : Except String Nat :=
  match position (fun f => f == str "<IDS|MSG>") frames with
  | some index => .ok index
  | none => .error "Malformed message: missing delimiter"

/-- delim_index on symbolic frames, same scan. -/
def delim_index_f {T : Type} (frames : List (Frame T)) : Except String Nat :=
  match position (fun f => f.isRaw (str "<IDS|MSG>")) frames with
  | some index => .ok index
  | none => .error "Malformed message: missing delimiter"

/-- sign_message (crypto.rs line 37), parametrized by the external
HMAC-SHA256 primitive mac (key and the four content-bearing frames to
lowercase hex): empty key yields the empty signature; a scheme other
than hmac-sha256 is only logged, the signature is computed all the same,
so the result does not depend on the scheme. -/
def sign_message {T : Type}
    (mac : Str → Frame T → Frame T → Frame T → Frame T → Str)
    (key _scheme : Str) (header parent_header metadata content : Frame T) : Str :=
  if key.isEmpty then [] else mac key header parent_header metadata content

/-- verify_incoming_hmac (crates/iaiken/src/messages/crypto.rs line 3):
empty key skips the check; otherwise the signature frame text is
compared with the recomputed signature and a mismatch is an error. -/
def verify_incoming_hmac {T : Type}
    (mac : Str → Frame T → Frame T → Frame T → Frame T → Str)
    (frames : List (Frame T)) (config_key config_signature_scheme : Str)
    (dix : Nat) : Except String Unit :=
  if config_key.isEmpty then .ok () else
    let incoming_sig := ((frames.getD (dix + 1) (.raw [])).text?).getD (str "invalid")
    let expected_sig := sign_message mac config_key config_signature_scheme
      (frames.getD (dix + 2) (.raw [])) (frames.getD (dix + 3) (.raw []))
      (frames.getD (dix + 4) (.raw [])) (frames.getD (dix + 5) (.raw []))
    if incoming_sig == expected_sig then .ok ()
    else .error "Warning: incoming HMAC mismatch"

/-- Parent-header frame decoding step of from_multipart: empty or
empty-object bytes give None, anything else must deserialize. -/
def parseParent {T : Type} (parent_bytes : Frame T) :
    Except String (Option MessageHeader) :=
  if parent_bytes.isRaw [] || parent_bytes.isRaw (str "\x7b\x7d") then .ok none
  else
    match headerOfFrame parent_bytes with
    | some h => .ok (some h)
    | none => .error "serde: parent header"

/-- Metadata frame decoding step of from_multipart: empty or empty-object
bytes give the empty object, anything else must deserialize. -/
def parseMetadata {T : Type} (metadata_bytes : Frame T) : Except String Json :=
  if metadata_bytes.isRaw [] || metadata_bytes.isRaw (str "\x7b\x7d") then
    .ok (Json.obj [])
  else
    match jsonOfFrame metadata_bytes with
    | some j => .ok j
    | none => .error "serde: metadata"

/-- Content frame decoding step of from_multipart: empty or empty-object
bytes are parsed as the empty JSON object into T (tEmpty is the result
of serde_json::from_str::<T> on the empty object), anything else must
deserialize. -/
def parseContent {T : Type} (tEmpty : Option T) (content_bytes : Frame T) :
    Except String T :=
  if content_bytes.isRaw [] || content_bytes.isRaw (str "\x7b\x7d") then
    match tEmpty with
    | some c => .ok c
    | none => .error "serde: content"
  else
    match contentOfFrame content_bytes with
    | some c => .ok c
    | none => .error "serde: content"

/-- from_multipart (crates/iaiken/src/messages/wire.rs line 30): locate
the delimiter, require six frames after it (inclusive of it), verify the
HMAC (propagating a mismatch as an error), then deserialize header,
parent header, metadata and content. -/
def from_multipart {T : Type}
    (mac : Str → Frame T → Frame T → Frame T → Frame T → Str)
    (tEmpty : Option T) (frames : List (Frame T))
    (config_key config_signature_scheme : Str) :
    Except String (JupyterMessage T) :=
  match position (fun f => f.isRaw (str "<IDS|MSG>")) frames with
  | none => .error "Malformed message: missing delimiter"
  | some dix =>
    if frames.length < dix + 6 then .error "Invalid message format" else
    let header_bytes := frames.getD (dix + 2) (.raw [])
    let parent_bytes := frames.getD (dix + 3) (.raw [])
    let metadata_bytes := frames.getD (dix + 4) (.raw [])
    let content_bytes := frames.getD (dix + 5) (.raw [])
    match verify_incoming_hmac mac frames config_key config_signature_scheme dix with
    | .error e => .error e
    | .ok _ =>
      match headerOfFrame header_bytes with
      | none => .error "serde: header"
      | some header =>
        match parseParent parent_bytes with
        | .error e => .error e
        | .ok parent_header =>
          match parseMetadata metadata_bytes with
          | .error e => .error e
          | .ok metadata =>
            match parseContent tEmpty content_bytes with
            | .error e => .error e
            | .ok content => .ok ⟨header, parent_header, metadata, content⟩

/-- to_envelope_multipart (crates/iaiken/src/messages/wire.rs line 88):
serialize the four parts, compute the signature over exactly those four
in that order, and prepend the caller-supplied identity and delimiter
frames reused verbatim (frames up to and including delim_index). The
source wraps the result in Ok unconditionally. -/
def to_envelope_multipart {T : Type}
    (mac : Str → Frame T → Frame T → Frame T → Frame T → Str)
    (msg : JupyterMessage T) (frames : List (Frame T)) (dix : Nat)
    (key scheme : Str) : List (Frame T) :=
  let header_bytes : Frame T := .hdr msg.header
  let parent_header_bytes : Frame T :=
    match msg.parent_header with
    | some h => .hdr h
    | none => .pnull
  let metadata_bytes : Frame T := .meta msg.metadata
  let content_bytes : Frame T := .cont msg.content
  let sig := sign_message mac key scheme header_bytes parent_header_bytes
    metadata_bytes content_bytes
  frames.take (dix + 1) ++
    [.raw sig, header_bytes, parent_header_bytes, metadata_bytes, content_bytes]

/-- legacy verify_incoming_hmac (src/messages/mod.rs line 267): same
recomputation, but the result is only printed; the Bool records whether
the mismatch warning fires. The legacy sign_message takes the scheme
first and the key second, and the legacy caller passes them in that
order, so key and scheme line up as here. -/
def legacy_verify_incoming_hmac {T : Type}
    (mac : Str → Frame T → Frame T → Frame T → Frame T → Str)
    (frames : List (Frame T)) (config_key config_signature_scheme : Str)
    (dix : Nat) : Bool :=
  if config_key.isEmpty then false
  else
    let incoming_sig := ((frames.getD (dix + 1) (.raw [])).text?).getD (str "invalid")
    let expected_sig := sign_message mac config_key config_signature_scheme
      (frames.getD (dix + 2) (.raw [])) (frames.getD (dix + 3) (.raw []))
      (frames.getD (dix + 4) (.raw [])) (frames.getD (dix + 5) (.raw []))
    incoming_sig != expected_sig

/-- legacy from_multipart (src/messages/mod.rs line 43): the verification
outcome is discarded, so a signature mismatch never stops decoding. Two
further quirks are kept: the frame-count bound requires only five frames
beyond the delimiter index, and the parent emptiness test reads absolute
frame 4. Where the source would panic on an out-of-range index the model
reads the default empty frame. -/
def legacy_from_multipart {T : Type}
    (mac : Str → Frame T → Frame T → Frame T → Frame T → Str)
    (tEmpty : Option T) (frames : List (Frame T))
    (config_key config_signature_scheme : Str) :
    Except String (JupyterMessage T) :=
  match position (fun f => f.isRaw (str "<IDS|MSG>")) frames with
  | none => .error "Malformed message: missing delimiter"
  | some dix =>
    if frames.length < dix + 5 then .error "Invalid message format" else
    let header_bytes := frames.getD (dix + 2) (.raw [])
    let parent_bytes := frames.getD (dix + 3) (.raw [])
    let metadata_bytes := frames.getD (dix + 4) (.raw [])
    let content_bytes := frames.getD (dix + 5) (.raw [])
    let _warned := legacy_verify_incoming_hmac mac frames config_key
      config_signature_scheme dix
    match headerOfFrame header_bytes with
    | none => .error "serde: header"
    | some header =>
      match (if (frames.getD 4 (.raw [])).isRaw [] ||
          parent_bytes.isRaw (str "\x7b\x7d") then Except.ok none
        else
          match headerOfFrame parent_bytes with
          | some h => Except.ok (some h)
          | none => Except.error "serde: parent header") with
      | .error e => .error e
      | .ok parent_header =>
        match parseMetadata metadata_bytes with
        | .error e => .error e
        | .ok metadata =>
          match parseContent tEmpty content_bytes with
          | .error e => .error e
          | .ok content => .ok ⟨header, parent_header, metadata, content⟩

/-! ### List helper lemmas for the codec proofs -/

theorem position_append_not {α : Type} (p : α → Bool) (l1 l2 : List α)
    (h : ∀ a ∈ l1, p a = false) :
    position p (l1 ++ l2) = (position p l2).map (· + l1.length) := by
  induction l1 with
  | nil =>
    simp only [List.nil_append, List.length_nil]
    cases position p l2 <;> simp
  | cons a l1 ih =>
    have ha := h a (List.mem_cons_self a l1)
    show (if p a = true then some 0
      else (position p (l1 ++ l2)).map (· + 1)) = _
    rw [ha, if_neg (by simp), ih fun x hx => h x (List.mem_cons_of_mem a hx)]
    cases position p l2 <;> simp [Nat.add_assoc]

theorem getD_append_len {α : Type} (l1 l2 : List α) (k : Nat) (d : α) :
    (l1 ++ l2).getD (l1.length + k) d = l2.getD k d := by
  induction l1 with
  | nil => simp
  | cons a l1 ih =>
    simp only [List.cons_append, List.length_cons]
    rw [Nat.add_right_comm, List.getD_cons_succ, ih]

/-! ### C5: delim_index on identity frames followed by the delimiter -/

/-- C5, counterexample: one identity frame whose bytes happen to equal
the delimiter marker, followed by the delimiter and five payload frames:
delim_index returns 0, not the identity count 1, so the result is not
independent of identity-frame content. -/
theorem delim_index_identity_collision :
    delim_index [str "<IDS|MSG>", str "<IDS|MSG>", str "s", str "h",
        str "p", str "m", str "c"] = .ok 0 ∧
    delim_index [str "<IDS|MSG>", str "<IDS|MSG>", str "s", str "h",
        str "p", str "m", str "c"] ≠ .ok 1 := by
  refine ⟨rfl, fun h => ?_⟩
  rw [show delim_index [str "<IDS|MSG>", str "<IDS|MSG>", str "s", str "h",
      str "p", str "m", str "c"] = .ok 0 from rfl] at h
  simp at h

/-- C5, amended: for N identity frames none of which equals the delimiter
bytes, followed by the delimiter and 5 payload frames, delim_index
returns N whatever the payload and the remaining identity bytes are. -/
theorem delim_index_returns_identity_count (ids payload : List Str)
    (hids : ∀ f ∈ ids, (f == str "<IDS|MSG>") = false)
    (_hpay : payload.length = 5) :
    delim_index (ids ++ str "<IDS|MSG>" :: payload) = .ok ids.length := by
  unfold delim_index
  rw [position_append_not (fun f => f == str "<IDS|MSG>") ids
    (str "<IDS|MSG>" :: payload) hids]
  simp [position]

/-- C5, witness: one ordinary identity frame, the delimiter, and five
payload frames give index 1. -/
theorem delim_index_returns_identity_count_witness :
    delim_index ([str "router"] ++ str "<IDS|MSG>" ::
      [str "s", str "h", str "p", str "m", str "c"]) = .ok 1 :=
  delim_index_returns_identity_count [str "router"]
    [str "s", str "h", str "p", str "m", str "c"] (by decide) (by decide)

/-! ### C2: behaviour on HMAC mismatch -/

/-- Sample header used by concrete codec scenarios. -/
def sampleHeader : MessageHeader :=
  ⟨str "m1", str "s1", str "kernel", str "d1", str "execute_request", str "5.3"⟩

/-- Sample parent header used by concrete codec scenarios. -/
def sampleParent : MessageHeader :=
  ⟨str "m0", str "s1", str "client", str "d0", str "execute_request", str "5.3"⟩

/-- Constant HMAC primitive used by concrete codec scenarios. -/
def macConst : Str → Frame Nat → Frame Nat → Frame Nat → Frame Nat → Str :=
  fun _ _ _ _ _ => str "aa"

/-- Concrete received frames whose signature frame bb does not match the
recomputed signature aa under key k. -/
def mismatchFrames : List (Frame Nat) :=
  [.raw (str "<IDS|MSG>"), .raw (str "bb"), .hdr sampleHeader,
   .hdr sampleParent, .meta (Json.obj []), .cont 7]

/-- C2, counterexample: a received message whose signature frame does not
match the recomputed HMAC under the non-empty key k is rejected by the
current decoder (from_multipart propagates the mismatch as an error and
no message is produced), while the legacy decoder kept under src/ still
decodes and would process the same message. -/
theorem hmac_mismatch_rejects :
    from_multipart macConst none mismatchFrames (str "k") (str "hmac-sha256") =
      .error "Warning: incoming HMAC mismatch" ∧
    legacy_from_multipart macConst none mismatchFrames (str "k")
        (str "hmac-sha256") =
      .ok ⟨sampleHeader, some sampleParent, Json.obj [], 7⟩ :=
  ⟨rfl, rfl⟩

/-- C2, amended: with a non-empty configured key, a signature frame that
differs from the HMAC recomputed over the header, parent_header,
metadata and content frames makes verify_incoming_hmac return an error
which from_multipart propagates, so the message is rejected, not
processed; the legacy copy under src/ only raises its warning flag; an
empty key bypasses verification entirely for any signature frame. -/
theorem hmac_mismatch_behaviour {T : Type}
    (mac : Str → Frame T → Frame T → Frame T → Frame T → Str)
    (tEmpty : Option T) (frames : List (Frame T)) (key scheme : Str)
    (dix : Nat)
    (hkey : key.isEmpty = false)
    (hpos : position (fun f => f.isRaw (str "<IDS|MSG>")) frames = some dix)
    (hlen : ¬ frames.length < dix + 6)
    (hsig : (((frames.getD (dix + 1) (.raw [])).text?).getD (str "invalid") ==
      mac key (frames.getD (dix + 2) (.raw [])) (frames.getD (dix + 3) (.raw []))
        (frames.getD (dix + 4) (.raw [])) (frames.getD (dix + 5) (.raw []))) = false) :
    from_multipart mac tEmpty frames key scheme =
      .error "Warning: incoming HMAC mismatch" ∧
    verify_incoming_hmac mac frames key scheme dix =
      .error "Warning: incoming HMAC mismatch" ∧
    legacy_verify_incoming_hmac mac frames key scheme dix = true ∧
    (∀ (frames2 : List (Frame T)) (scheme2 : Str) (dix2 : Nat),
      verify_incoming_hmac mac frames2 [] scheme2 dix2 = .ok ()) := by
  have hver : verify_incoming_hmac mac frames key scheme dix =
      .error "Warning: incoming HMAC mismatch" := by
    unfold verify_incoming_hmac sign_message
    rw [hkey]
    simp only [Bool.false_eq_true, if_false]
    rw [hsig]
    simp
  refine ⟨?_, hver, ?_, ?_⟩
  · unfold from_multipart
    rw [hpos]
    simp only [if_neg hlen, hver]
  · unfold legacy_verify_incoming_hmac sign_message
    rw [hkey]
    simp only [Bool.false_eq_true, if_false, bne]
    rw [hsig]
    rfl
  · intro frames2 scheme2 dix2
    unfold verify_incoming_hmac
    simp

/-- C2, witness: the amended behaviour at the concrete mismatch frames
under key k. -/
theorem hmac_mismatch_behaviour_witness :
    from_multipart macConst none mismatchFrames (str "k") (str "hmac-sha256") =
      .error "Warning: incoming HMAC mismatch" ∧
    verify_incoming_hmac macConst mismatchFrames (str "k") (str "hmac-sha256") 0 =
      .error "Warning: incoming HMAC mismatch" ∧
    legacy_verify_incoming_hmac macConst mismatchFrames (str "k")
      (str "hmac-sha256") 0 = true ∧
    (∀ (frames2 : List (Frame Nat)) (scheme2 : Str) (dix2 : Nat),
      verify_incoming_hmac macConst frames2 [] scheme2 dix2 = .ok ()) :=
  hmac_mismatch_behaviour macConst none mismatchFrames (str "k")
    (str "hmac-sha256") 0 (by decide) (by decide) (by decide) (by decide)

/-! ### C6: encode-decode round trip -/

/-- C6, counterexample: an envelope with no parent header (the claim
quantifies over every envelope with serializable content) encodes its
parent slot to the JSON null bytes, which from_multipart then fails to
deserialize as a MessageHeader, so decoding the encoding fails instead
of reproducing the content. -/
theorem roundtrip_fails_for_missing_parent :
    from_multipart macConst none
      (to_envelope_multipart macConst
        (⟨sampleHeader, none, Json.obj [], 7⟩ : JupyterMessage Nat)
        [Frame.raw (str "<IDS|MSG>")] 0 (str "k") (str "hmac-sha256"))
      (str "k") (str "hmac-sha256") = .error "serde: parent header" :=
  rfl

/-- C6, amended: for every envelope whose parent_header is present, and
every identity-plus-delimiter routing header in which no identity frame
carries the delimiter bytes, decoding (with the same key and scheme) the
frames produced by encoding succeeds and reproduces the whole envelope,
its content in particular. -/
theorem to_envelope_roundtrip {T : Type}
    (mac : Str → Frame T → Frame T → Frame T → Frame T → Str)
    (tEmpty : Option T) (key scheme : Str) (msg : JupyterMessage T)
    (ph : MessageHeader) (hph : msg.parent_header = some ph)
    (ids : List (Frame T))
    (hids : ∀ f ∈ ids, f.isRaw (str "<IDS|MSG>") = false) :
    from_multipart mac tEmpty
      (to_envelope_multipart mac msg (ids ++ [Frame.raw (str "<IDS|MSG>")])
        ids.length key scheme) key scheme = .ok msg := by
  obtain ⟨header, parent, metadata, content⟩ := msg
  replace hph : parent = some ph := hph
  subst hph
  have hlen1 : (ids ++ [Frame.raw (str "<IDS|MSG>") (T := T)]).length =
      ids.length + 1 := by simp
  have htake : (ids ++ [Frame.raw (str "<IDS|MSG>") (T := T)]).take
      (ids.length + 1) = ids ++ [Frame.raw (str "<IDS|MSG>")] := by
    rw [← hlen1, List.take_length]
  have henc : to_envelope_multipart mac
      (⟨header, some ph, metadata, content⟩ : JupyterMessage T)
      (ids ++ [Frame.raw (str "<IDS|MSG>")]) ids.length key scheme =
      ids ++ (Frame.raw (str "<IDS|MSG>") ::
        Frame.raw (sign_message mac key scheme (.hdr header) (.hdr ph)
          (.meta metadata) (.cont content)) ::
        Frame.hdr header :: Frame.hdr ph :: Frame.meta metadata ::
        Frame.cont content :: []) := by
    unfold to_envelope_multipart
    rw [htake, List.append_assoc]
    rfl
  rw [henc]
  unfold from_multipart
  rw [position_append_not _ ids _ hids]
  rw [show position (fun f => Frame.isRaw f (str "<IDS|MSG>"))
      (Frame.raw (str "<IDS|MSG>") ::
        Frame.raw (sign_message mac key scheme (.hdr header) (.hdr ph)
          (.meta metadata) (.cont content)) ::
        Frame.hdr header :: Frame.hdr ph :: Frame.meta metadata ::
        Frame.cont content :: []) = some 0 by simp [position, Frame.isRaw]]
  rw [show Option.map (fun x => x + ids.length) (some 0) = some ids.length by
    simp]
  have hver : verify_incoming_hmac mac
      (ids ++ (Frame.raw (str "<IDS|MSG>") ::
        Frame.raw (sign_message mac key scheme (.hdr header) (.hdr ph)
          (.meta metadata) (.cont content)) ::
        Frame.hdr header :: Frame.hdr ph :: Frame.meta metadata ::
        Frame.cont content :: [])) key scheme ids.length = .ok () := by
    unfold verify_incoming_hmac
    simp only [getD_append_len]
    by_cases hk : key.isEmpty
    · simp [hk]
    · simp [hk, sign_message, Frame.text?]
  dsimp only
  rw [if_neg (by simp)]
  rw [hver]
  simp only [getD_append_len]
  simp [List.length_append, Frame.isRaw, Frame.text?, headerOfFrame,
    parseParent, parseMetadata, parseContent, jsonOfFrame, contentOfFrame]

/-- Concrete envelope with a parent header, content 7. -/
def withParentMsg : JupyterMessage Nat :=
  ⟨sampleHeader, some sampleParent, Json.obj [], 7⟩

/-- C6, witness: the round trip at a concrete envelope, one ordinary
identity frame, key k. -/
theorem to_envelope_roundtrip_witness :
    from_multipart macConst none
      (to_envelope_multipart macConst withParentMsg
        ([(Frame.raw (str "r1") : Frame Nat)] ++ [Frame.raw (str "<IDS|MSG>")])
        (List.length [(Frame.raw (str "r1") : Frame Nat)]) (str "k")
        (str "hmac-sha256"))
      (str "k") (str "hmac-sha256") = .ok withParentMsg :=
  to_envelope_roundtrip macConst none (str "k") (str "hmac-sha256")
    withParentMsg sampleParent rfl [Frame.raw (str "r1")] (by decide)

/-! ### Shell channel model: crates/iaiken/src/connection/shell.rs and
shell/execute.rs. The Aiken evaluation engine behind execute_aiken_code
and eval is an explicit parameter evalF threading the evaluator state. -/

/-- MIME bundle: a JSON object from MIME type to display text. -/
abbrev MimeBundle := List (Str × Str)

/-- Successful user-expression result bundle (eval/mod.rs line 51). -/
def okBundle (v : Str) : MimeBundle := [(str "text/plain", v)]

/-- Error-placeholder bundle (eval/mod.rs line 60). -/
def errBundle : MimeBundle :=
  [(str "text/plain", str "Error evaluating expression")]

/-- ExecuteRequest content (messages/shell/execute.rs). -/
structure ExecuteRequest where
  code : Str
  silent : Bool
  store_history : Bool
  user_expressions : Json
  allow_stdin : Bool
  stop_on_error : Bool

/-- ExecuteReply content (messages/shell/execute.rs), tagged ok/error. -/
inductive ExecuteReply where
  | ok (execution_count : Nat)
      (user_expressions : Option (List (Str × MimeBundle)))
  | error (execution_count : Nat) (ename : Str) (evalue : Str)
      (traceback : List Str)

/-- Execution count carried by a reply. -/
def ExecuteReply.count : ExecuteReply → Nat
  | .ok n _ => n
  | .error n _ _ _ => n

/-- Observable outputs of the shell handler: IOPub events enqueued on
the broadcast queue and the reply sent on the shell socket, in emission
order. -/
inductive KernelOutput where
  | statusEvent (state : Str)
  | executeInputEvent (code : Str) (execution_count : Nat)
  | executeResultEvent (execution_count : Nat) (data : Str)
  | errorEvent (ename : Str) (evalue : Str) (traceback : List Str)
  | reply (r : ExecuteReply)
  | kernelInfoReplyEvent

/-- evaluate_user_expressions (eval/mod.rs line 29): each name-expression
pair is evaluated through the shared evaluator in order; a success
yields a text/plain bundle of the display value, a failure yields the
error-placeholder bundle; every name receives an entry. -/
def evaluate_user_expressions {σ : Type} (evalF : σ → Str → Except Str Str × σ)
    (st : σ) : List (Str × Str) → List (Str × MimeBundle) × σ
  | [] => ([], st)
  | (name, expr) :: rest =>
    match evalF st expr with
    | (.ok v, st1) =>
      let (rs, st2) := evaluate_user_expressions evalF st1 rest
      ((name, okBundle v) :: rs, st2)
    | (.error _, st1) =>
      let (rs, st2) := evaluate_user_expressions evalF st1 rest
      ((name, errBundle) :: rs, st2)

/-- String-valued entries of the user_expressions JSON object, as the
handler keeps only Value::String expressions (execute.rs line 93). -/
def stringExprs (fields : List (Str × Json)) : List (Str × Str) :=
  fields.filterMap (fun p =>
    match p.2 with
    | Json.string s => some (p.1, s)
    | _ => none)

/-- User-expression block of handle_execute_request (execute.rs lines
86 to 110): only a non-empty JSON object with at least one string-valued
entry triggers evaluation; otherwise the reply carries no map. -/
def userExprResults {σ : Type} (evalF : σ → Str → Except Str Str × σ)
    (st : σ) (ue : Json) : Option (List (Str × MimeBundle)) × σ :=
  match ue with
  | Json.obj fields =>
    if fields.isEmpty then (none, st)
    else
      let expressions := stringExprs fields
      if expressions.isEmpty then (none, st)
      else
        let (results, st1) := evaluate_user_expressions evalF st expressions
        (some results, st1)
  | _ => (none, st)

/-- First line of a diagnostic (execute.rs line 122). -/
def firstLine (e : Str) : Str := (Rs.lines e).headD []

/-- handle_execute_request (execute.rs line 12): when the typed parse of
the request content fails the handler does nothing; otherwise it emits
busy, then (unless silent) execute_input, evaluates the code, emits
(unless silent) execute_result on success or the error event on failure,
resolves user expressions on the success path, sends the reply and emits
idle. -/
def handle_execute_request {σ : Type} (evalF : σ → Str → Except Str Str × σ)
    (st : σ) (parse : Option ExecuteRequest) (execution_count : Nat) :
    List KernelOutput × σ :=
  match parse with
  | none => ([], st)
  | some request =>
    let busy := [KernelOutput.statusEvent (str "busy")]
    let inputEv := if !request.silent then
        [KernelOutput.executeInputEvent request.code execution_count]
      else []
    match evalF st request.code with
    | (.ok execution_result, st1) =>
      let resultEv := if !request.silent then
          [KernelOutput.executeResultEvent execution_count execution_result]
        else []
      let (user_expressions, st2) :=
        userExprResults evalF st1 request.user_expressions
      let reply := ExecuteReply.ok execution_count user_expressions
      (busy ++ inputEv ++ resultEv ++
        [KernelOutput.reply reply, KernelOutput.statusEvent (str "idle")], st2)
    | (.error err, st1) =>
      let ename := str "AikenError"
      let evalue := firstLine err
      let traceback := Rs.lines err
      let errorEv := [KernelOutput.errorEvent ename evalue traceback]
      let reply := ExecuteReply.error execution_count ename evalue traceback
      (busy ++ inputEv ++ errorEv ++
        [KernelOutput.reply reply, KernelOutput.statusEvent (str "idle")], st1)

/-- An incoming shell message after the generic decode: its header
msg_type, and the outcome of the typed ExecuteRequest re-parse of the
same frames used when the message is routed as an execute_request. -/
structure InMsg where
  msg_type : Str
  execParse : Option ExecuteRequest

/-- Modulus of the AtomicU32 execution counter: fetch_add on a u32
wraps around at 2 to the power 32. -/
def u32Mod : Nat := 4294967296

/-- One iteration of shell_loop (shell.rs line 24): an execute_request
increments the counter before the handler runs — the counter is an
AtomicU32 (shell.rs line 66), so fetch_add wraps at 2 to the power 32,
modelled by the explicit modulus; a kernel_info_request emits its
busy-reply-idle bracket; anything else is logged and ignored. -/
def shellStep {σ : Type} (evalF : σ → Str → Except Str Str × σ)
    (st : σ) (count : Nat) (m : InMsg) : List KernelOutput × σ × Nat :=
  if m.msg_type == str "execute_request" then
    let n := (count + 1) % u32Mod
    let (outs, st1) := handle_execute_request evalF st m.execParse n
    (outs, st1, n)
  else if m.msg_type == str "kernel_info_request" then
    ([KernelOutput.statusEvent (str "busy"), KernelOutput.kernelInfoReplyEvent,
      KernelOutput.statusEvent (str "idle")], st, count)
  else
    ([], st, count)

/-- Sequential shell loop over a list of incoming messages, returning the
per-message output batches, the final evaluator state and the final
execution counter. -/
def shellRun {σ : Type} (evalF : σ → Str → Except Str Str × σ)
    (st : σ) (count : Nat) : List InMsg → List (List KernelOutput) × σ × Nat
  | [] => ([], st, count)
  | m :: ms =>
    let (outs, st1, c1) := shellStep evalF st count m
    let (rest, st2, c2) := shellRun evalF st1 c1 ms
    (outs :: rest, st2, c2)

/-- Execution count carried by an output, when it carries one. -/
def carriedCount : KernelOutput → Option Nat
  | .executeInputEvent _ n => some n
  | .executeResultEvent n _ => some n
  | .reply r => some r.count
  | _ => none

/-- Execution counts of the shell replies among some outputs, in order. -/
def replyCounts (outs : List KernelOutput) : List Nat :=
  outs.filterMap (fun o =>
    match o with
    | .reply r => some r.count
    | _ => none)

/-! ### Control channel model: crates/iaiken/src/connection/control.rs -/

/-- An incoming control message after the generic decode: its header
msg_type and the outcome of the typed ShutdownRequest re-parse (the
restart flag), None when that parse fails. -/
structure CtrlMsg where
  msg_type : Str
  restartParse : Option Bool

/-- Observable outputs of the control loop: the IOPub busy event, the
shutdown reply sent on the control socket, and the root cancellation. -/
inductive CtrlOutput where
  | statusEvent (state : Str)
  | shutdownReplyEvent (restart : Bool)
  | rootCancel

/-- One iteration of control_loop (control.rs line 18): a
shutdown_request emits busy, sends the reply echoing the restart flag
(defaulting to false when the typed parse fails), cancels the root token
after the send, and breaks out of the loop; every other message type is
logged and ignored. The trailing idle send in the source sits after an
unconditional break and is unreachable. -/
def control_step (m : CtrlMsg) : List CtrlOutput × Bool :=
  if m.msg_type == str "shutdown_request" then
    let restart := m.restartParse.getD false
    ([CtrlOutput.statusEvent (str "busy"), CtrlOutput.shutdownReplyEvent restart,
      CtrlOutput.rootCancel], true)
  else
    ([], false)

/-- Control loop over a list of incoming messages: processing stops at
the first shutdown_request; later messages are never received. -/
def control_run : List CtrlMsg → List CtrlOutput
  | [] => []
  | m :: ms =>
    let (outs, brk) := control_step m
    if brk then outs else outs ++ control_run ms

/-! ### C3: execution counter across sequential execute requests -/

/-- Auxiliary: a handled execute request with count n produces exactly
one reply, carrying n, and every count carried by its outputs is n. -/
theorem handle_execute_request_counts {σ : Type}
    (evalF : σ → Str → Except Str Str × σ) (st : σ) (req : ExecuteRequest)
    (n : Nat) :
    replyCounts (handle_execute_request evalF st (some req) n).1 = [n] ∧
    ∀ o ∈ (handle_execute_request evalF st (some req) n).1, ∀ k,
      carriedCount o = some k → k = n := by
  rcases hev : evalF st req.code with ⟨r, st1⟩
  rcases r with err | v
  · by_cases hsil : req.silent <;>
      simp [handle_execute_request, hev, hsil, replyCounts, carriedCount,
        ExecuteReply.count]
  · rcases huer : userExprResults evalF st1 req.user_expressions with ⟨ue, st2⟩
    by_cases hsil : req.silent <;>
      simp [handle_execute_request, hev, huer, hsil, replyCounts, carriedCount,
        ExecuteReply.count]

/-- Auxiliary: one message either leaves the counter unchanged or steps
it by the wrapping increment. -/
theorem shellStep_counter_cases {σ : Type}
    (evalF : σ → Str → Except Str Str × σ) (st : σ) (c : Nat) (m : InMsg) :
    (shellStep evalF st c m).2.2 = (c + 1) % u32Mod ∨
      (shellStep evalF st c m).2.2 = c := by
  unfold shellStep
  split
  · exact Or.inl rfl
  · split
    · exact Or.inr rfl
    · exact Or.inr rfl

/-- Auxiliary: while the counter has room to stay below the u32 modulus
it never decreases across a run. -/
theorem shellRun_counter_le {σ : Type} (evalF : σ → Str → Except Str Str × σ) :
    ∀ (msgs : List InMsg) (st : σ) (c : Nat),
      c + msgs.length < u32Mod → c ≤ (shellRun evalF st c msgs).2.2 := by
  intro msgs
  induction msgs with
  | nil => intro st c _; exact Nat.le_refl c
  | cons m ms ih =>
    intro st c hc
    simp only [List.length_cons] at hc
    have hrun : (shellRun evalF st c (m :: ms)).2.2 =
        (shellRun evalF (shellStep evalF st c m).2.1
          (shellStep evalF st c m).2.2 ms).2.2 := by
      rcases hstep : shellStep evalF st c m with ⟨outs, st1, c1⟩
      simp [shellRun, hstep]
    have hle : c ≤ (shellStep evalF st c m).2.2 ∧
        (shellStep evalF st c m).2.2 + ms.length < u32Mod := by
      rcases shellStep_counter_cases evalF st c m with h | h <;> rw [h]
      · have h1 : (c + 1) % u32Mod = c + 1 := Nat.mod_eq_of_lt (by omega)
        rw [h1]
        omega
      · omega
    rw [hrun]
    exact hle.1.trans (ih _ _ hle.2)

/-- Auxiliary: over a list of well-formed execute requests starting at
counter c, the reply counts are c+1, ..., c+N, the final counter is c+N,
and batch i carries only the count c+i+1. -/
theorem shellRun_execute_counts {σ : Type}
    (evalF : σ → Str → Except Str Str × σ) :
    ∀ (msgs : List InMsg) (st : σ) (c : Nat),
      c + msgs.length < u32Mod →
      (∀ m ∈ msgs, m.msg_type = str "execute_request" ∧
        ∃ r, m.execParse = some r) →
      replyCounts (shellRun evalF st c msgs).1.flatten =
        List.range' (c + 1) msgs.length ∧
      (shellRun evalF st c msgs).2.2 = c + msgs.length ∧
      ∀ i, i < msgs.length →
        ∀ o ∈ (shellRun evalF st c msgs).1.getD i [], ∀ k,
          carriedCount o = some k → k = c + i + 1 := by
  intro msgs
  induction msgs with
  | nil =>
    intro st c _ _
    refine ⟨by simp [shellRun, replyCounts], by simp [shellRun], ?_⟩
    intro i hi
    exact absurd hi (Nat.not_lt_zero i)
  | cons m ms ih =>
    intro st c hc h
    simp only [List.length_cons] at hc
    have hmod : (c + 1) % u32Mod = c + 1 := Nat.mod_eq_of_lt (by omega)
    obtain ⟨hty, r, hr⟩ := h m (List.mem_cons_self m ms)
    have hrest := fun x hx => h x (List.mem_cons_of_mem m hx)
    have hstep : shellStep evalF st c m =
        ((handle_execute_request evalF st (some r) (c + 1)).1,
          (handle_execute_request evalF st (some r) (c + 1)).2, c + 1) := by
      simp [shellStep, hty, hr, hmod]
    set st1 := (handle_execute_request evalF st (some r) (c + 1)).2 with hst1
    have hrun : shellRun evalF st c (m :: ms) =
        ((handle_execute_request evalF st (some r) (c + 1)).1 ::
            (shellRun evalF st1 (c + 1) ms).1,
          (shellRun evalF st1 (c + 1) ms).2.1,
          (shellRun evalF st1 (c + 1) ms).2.2) := by
      simp [shellRun, hstep]
    obtain ⟨hc1, hc2, hc3⟩ := ih st1 (c + 1) (by omega) hrest
    obtain ⟨hh1, hh2⟩ :=
      handle_execute_request_counts evalF st r (c + 1)
    refine ⟨?_, ?_, ?_⟩
    · rw [hrun]
      simp only [replyCounts] at hh1 hc1 ⊢
      simp only [List.flatten_cons, List.filterMap_append, hh1, hc1,
        List.length_cons, List.range'_succ, List.singleton_append]
    · rw [hrun]
      simp only [List.length_cons]
      omega
    · intro i hi o ho k hk
      rw [hrun] at ho
      cases i with
      | zero =>
        simp only [List.getD_cons_zero] at ho
        have := hh2 o ho k hk
        omega
      | succ j =>
        simp only [List.getD_cons_succ] at ho
        have hj : j < ms.length := by
          simp only [List.length_cons] at hi
          omega
        have := hc3 j hj o ho k hk
        omega

/-- C3, amended: the execution counter is a u32 and advances by a
wrapping increment, so the unbounded claim holds below the wrap point:
for N sequential well-formed execute_requests with N below 2 to the
power 32, from a fresh counter, the reply execution counts are exactly
1, ..., N with no gaps or repeats; the final counter is N (one increment
per request, taken before the reply is built); every count carried by
the events and the reply of request i is i+1; and the counter never
decreases across a run while it has room below the modulus. -/
theorem execution_counts {σ : Type} (evalF : σ → Str → Except Str Str × σ)
    (msgs : List InMsg) (st : σ) (hN : msgs.length < u32Mod)
    (hwf : ∀ m ∈ msgs, m.msg_type = str "execute_request" ∧
      ∃ r, m.execParse = some r) :
    replyCounts (shellRun evalF st 0 msgs).1.flatten =
      List.range' 1 msgs.length ∧
    (shellRun evalF st 0 msgs).2.2 = msgs.length ∧
    (∀ i, i < msgs.length →
      ∀ o ∈ (shellRun evalF st 0 msgs).1.getD i [], ∀ k,
        carriedCount o = some k → k = i + 1) ∧
    (∀ (msgs2 : List InMsg) (st2 : σ) (c : Nat),
      c + msgs2.length < u32Mod → c ≤ (shellRun evalF st2 c msgs2).2.2) := by
  obtain ⟨h1, h2, h3⟩ :=
    shellRun_execute_counts evalF msgs st 0 (by omega) hwf
  refine ⟨by simpa using h1, by simpa using h2, ?_,
    fun msgs2 st2 c hc => shellRun_counter_le evalF msgs2 st2 c hc⟩
  intro i hi o ho k hk
  have := h3 i hi o ho k hk
  omega

/-- Evaluation engine stub that always succeeds. -/
def okEval : Unit → Str → Except Str Str × Unit :=
  fun u _ => (Except.ok (str "True"), u)

/-- A well-formed non-silent execute request message. -/
def execMsg1 : InMsg :=
  ⟨str "execute_request",
    some ⟨str "1 + 1", false, true, Json.obj [], false, false⟩⟩

/-- A well-formed silent execute request message. -/
def execMsg2 : InMsg :=
  ⟨str "execute_request",
    some ⟨str "2 + 2", true, true, Json.obj [], false, false⟩⟩

/-- C3, witness: two sequential execute requests yield reply counts
1, 2. -/
theorem execution_counts_witness :
    replyCounts (shellRun okEval () 0 [execMsg1, execMsg2]).1.flatten =
      List.range' 1 2 :=
  (execution_counts okEval [execMsg1, execMsg2] () (by decide)
    (by
      intro m hm
      rcases List.mem_cons.mp hm with rfl | hm
      · exact ⟨rfl, _, rfl⟩
      rcases List.mem_cons.mp hm with rfl | hm
      · exact ⟨rfl, _, rfl⟩
      exact absurd hm (List.not_mem_nil m))).1

/-- Auxiliary: counter reached by one execute request under the
always-succeeding engine. -/
theorem shellStep_execMsg1_counter (st : Unit) (c : Nat) :
    (shellStep okEval st c execMsg1).2.2 = (c + 1) % u32Mod := rfl

/-- Auxiliary: counter reached by a run of k+1 execute requests under
the always-succeeding engine. -/
theorem shellRun_replicate_counter :
    ∀ (k c : Nat) (st : Unit),
      (shellRun okEval st c (List.replicate (k + 1) execMsg1)).2.2 =
        (c + k + 1) % u32Mod := by
  intro k
  induction k with
  | zero =>
    intro c st
    rcases hstep : shellStep okEval st c execMsg1 with ⟨o, s, n⟩
    have hn : n = (c + 1) % u32Mod := by
      have h := shellStep_execMsg1_counter st c
      rw [hstep] at h
      exact h
    simp [List.replicate, shellRun, hstep, hn]
  | succ k ih =>
    intro c st
    rcases hstep : shellStep okEval st c execMsg1 with ⟨o, s, n⟩
    have hn : n = (c + 1) % u32Mod := by
      have h := shellStep_execMsg1_counter st c
      rw [hstep] at h
      exact h
    have hrun : (shellRun okEval st c
        (List.replicate (k + 1 + 1) execMsg1)).2.2 =
        (shellRun okEval s n (List.replicate (k + 1) execMsg1)).2.2 := by
      rw [List.replicate_succ]
      simp [shellRun, hstep]
    rw [hrun, ih n s, hn]
    simp only [u32Mod]
    omega

/-- C3, counterexample: the execution counter is an AtomicU32 and
fetch_add wraps at 2 to the power 32, so the unbounded claim fails: a
run of 4294967296 well-formed execute requests from a fresh counter
ends with the counter at 0, not at N; and the single accepted request
arriving at counter 4294967295 is answered with execution_count 0 — the
counter decreases and the reply count repeats an earlier value. -/
theorem execution_counter_wraps :
    (List.replicate 4294967296 execMsg1).length = 4294967296 ∧
    (shellRun okEval () 0 (List.replicate 4294967296 execMsg1)).2.2 = 0 ∧
    (shellStep okEval () 4294967295 execMsg1).2.2 = 0 ∧
    replyCounts (shellStep okEval () 4294967295 execMsg1).1 = [0] := by
  refine ⟨List.length_replicate 4294967296 execMsg1, ?_, ?_, ?_⟩
  · have h := shellRun_replicate_counter 4294967295 0 ()
    rw [show (4294967295 + 1 : Nat) = 4294967296 from rfl] at h
    exact h.trans (by decide)
  · exact (shellStep_execMsg1_counter () 4294967295).trans (by decide)
  · decide

/-! ### C4: silent execution -/

/-- C4: a well-formed execute_request with the silent flag set still
produces the busy and idle status events and exactly one reply carrying
the execution count, but no execute_input event and no execute_result
event, whatever the evaluation outcome. -/
theorem silent_execution {σ : Type} (evalF : σ → Str → Except Str Str × σ)
    (st : σ) (req : ExecuteRequest) (n : Nat) (hsil : req.silent = true) :
    KernelOutput.statusEvent (str "busy") ∈
      (handle_execute_request evalF st (some req) n).1 ∧
    KernelOutput.statusEvent (str "idle") ∈
      (handle_execute_request evalF st (some req) n).1 ∧
    replyCounts (handle_execute_request evalF st (some req) n).1 = [n] ∧
    (∀ c k, KernelOutput.executeInputEvent c k ∉
      (handle_execute_request evalF st (some req) n).1) ∧
    (∀ k d, KernelOutput.executeResultEvent k d ∉
      (handle_execute_request evalF st (some req) n).1) := by
  rcases hev : evalF st req.code with ⟨r, st1⟩
  rcases r with err | v
  · simp [handle_execute_request, hev, hsil, replyCounts, ExecuteReply.count]
  · rcases huer : userExprResults evalF st1 req.user_expressions with ⟨ue, st2⟩
    simp [handle_execute_request, hev, huer, hsil, replyCounts,
      ExecuteReply.count]

/-- C4, witness: a silent request under the always-succeeding engine at
count 5. -/
theorem silent_execution_witness :
    KernelOutput.statusEvent (str "busy") ∈
      (handle_execute_request okEval ()
        (some ⟨str "2 + 2", true, true, Json.obj [], false, false⟩) 5).1 ∧
    KernelOutput.statusEvent (str "idle") ∈
      (handle_execute_request okEval ()
        (some ⟨str "2 + 2", true, true, Json.obj [], false, false⟩) 5).1 ∧
    replyCounts (handle_execute_request okEval ()
        (some ⟨str "2 + 2", true, true, Json.obj [], false, false⟩) 5).1 = [5] ∧
    (∀ c k, KernelOutput.executeInputEvent c k ∉
      (handle_execute_request okEval ()
        (some ⟨str "2 + 2", true, true, Json.obj [], false, false⟩) 5).1) ∧
    (∀ k d, KernelOutput.executeResultEvent k d ∉
      (handle_execute_request okEval ()
        (some ⟨str "2 + 2", true, true, Json.obj [], false, false⟩) 5).1) :=
  silent_execution okEval ()
    ⟨str "2 + 2", true, true, Json.obj [], false, false⟩ 5 rfl

/-! ### C9: execute_request whose typed content parse fails -/

/-- C9: a message routed as an execute_request whose content does not
deserialize into ExecuteRequest still increments the execution counter
(before the handler runs), but the handler emits nothing at all: no
reply and no IOPub event, not even the busy and idle bracket; the loop
then continues with the evaluator state untouched. -/
theorem malformed_execute_request {σ : Type}
    (evalF : σ → Str → Except Str Str × σ) (st : σ) (c : Nat) (m : InMsg)
    (rest : List InMsg) (hty : m.msg_type = str "execute_request")
    (hparse : m.execParse = none) :
    shellStep evalF st c m = ([], st, (c + 1) % u32Mod) ∧
    shellRun evalF st c (m :: rest) =
      (([] : List KernelOutput) ::
          (shellRun evalF st ((c + 1) % u32Mod) rest).1,
        (shellRun evalF st ((c + 1) % u32Mod) rest).2) := by
  have h1 : shellStep evalF st c m = ([], st, (c + 1) % u32Mod) := by
    simp [shellStep, hty, hparse, handle_execute_request]
  exact ⟨h1, by simp [shellRun, h1]⟩

/-- C9, witness: a malformed execute request followed by a well-formed
one: the first produces an empty batch and bumps the counter to 1, the
second is served normally from counter 1. -/
theorem malformed_execute_request_witness :
    shellStep okEval () 0 ⟨str "execute_request", none⟩ = ([], (), 1) ∧
    shellRun okEval () 0 (⟨str "execute_request", none⟩ :: [execMsg1]) =
      (([] : List KernelOutput) :: (shellRun okEval () 1 [execMsg1]).1,
        (shellRun okEval () 1 [execMsg1]).2) := by
  have h := malformed_execute_request okEval () 0 ⟨str "execute_request", none⟩
    [execMsg1] rfl rfl
  simpa [u32Mod] using h

/-! ### C10: error event under the silent flag -/

/-- C10: when evaluation of a well-formed execute_request fails, the
handler output is exactly busy, then execute_input unless silent, then
an IOPub error event, then the error reply, then idle; the error event
carries the same ename, the same first-line evalue and the same
line-by-line traceback as the reply, and it is emitted whether or not
the silent flag is set. -/
theorem error_event_despite_silent {σ : Type}
    (evalF : σ → Str → Except Str Str × σ) (st st1 : σ)
    (req : ExecuteRequest) (n : Nat) (e : Str)
    (hev : evalF st req.code = (Except.error e, st1)) :
    (handle_execute_request evalF st (some req) n).1 =
      [KernelOutput.statusEvent (str "busy")] ++
      (if req.silent then []
        else [KernelOutput.executeInputEvent req.code n]) ++
      [KernelOutput.errorEvent (str "AikenError") (firstLine e) (Rs.lines e),
       KernelOutput.reply (ExecuteReply.error n (str "AikenError")
         (firstLine e) (Rs.lines e)),
       KernelOutput.statusEvent (str "idle")] := by
  by_cases hsil : req.silent <;>
    simp [handle_execute_request, hev, hsil]

/-- Evaluation engine stub that always fails with a two-line diagnostic. -/
def errEval : Unit → Str → Except Str Str × Unit :=
  fun u _ => (Except.error (str "boom\nline two"), u)

/-- C10, witness: a silent failing request still emits the error event
with the first diagnostic line as evalue and both lines as traceback. -/
theorem error_event_despite_silent_witness :
    (handle_execute_request errEval ()
      (some ⟨str "1 + 1", true, true, Json.obj [], false, false⟩) 4).1 =
      [KernelOutput.statusEvent (str "busy")] ++
      (if (⟨str "1 + 1", true, true, Json.obj [], false, false⟩ :
          ExecuteRequest).silent then []
        else [KernelOutput.executeInputEvent (str "1 + 1") 4]) ++
      [KernelOutput.errorEvent (str "AikenError")
        (firstLine (str "boom\nline two")) (Rs.lines (str "boom\nline two")),
       KernelOutput.reply (ExecuteReply.error 4 (str "AikenError")
         (firstLine (str "boom\nline two")) (Rs.lines (str "boom\nline two"))),
       KernelOutput.statusEvent (str "idle")] :=
  error_event_despite_silent errEval () ()
    ⟨str "1 + 1", true, true, Json.obj [], false, false⟩ 4
    (str "boom\nline two") rfl

/-! ### C7: shutdown on the control channel -/

/-- C7: for a shutdown_request (here with a successfully parsed restart
flag) arriving after any run of non-shutdown control messages, the whole
control run is exactly the busy status event, then one shutdown reply
echoing the restart flag, then the root cancellation — in that order.
The reply is therefore sent before the root token is cancelled, no
trailing idle status is emitted, and nothing at all is sent afterwards:
messages after the shutdown are never received. -/
theorem shutdown_control_run (pre : List CtrlMsg) (m : CtrlMsg)
    (rest : List CtrlMsg) (r : Bool)
    (hpre : ∀ p ∈ pre, p.msg_type ≠ str "shutdown_request")
    (hty : m.msg_type = str "shutdown_request")
    (hr : m.restartParse = some r) :
    control_run (pre ++ m :: rest) =
      [CtrlOutput.statusEvent (str "busy"),
       CtrlOutput.shutdownReplyEvent r, CtrlOutput.rootCancel] := by
  induction pre with
  | nil =>
    simp [control_run, control_step, hty, hr]
  | cons p ps ih =>
    have hp := hpre p (List.mem_cons_self p ps)
    have hstep : control_step p = ([], false) := by
      simp [control_step, hp]
    simp only [List.cons_append, control_run, hstep, Bool.false_eq_true,
      if_false, List.nil_append]
    exact ih fun x hx => hpre x (List.mem_cons_of_mem p hx)

/-- C7, witness: an ignored kernel_info_request on the control channel,
then shutdown with restart false, then a further (never received)
message. -/
theorem shutdown_control_run_witness :
    control_run ([⟨str "kernel_info_request", none⟩] ++
      (⟨str "shutdown_request", some false⟩ : CtrlMsg) ::
        [⟨str "shutdown_request", some true⟩]) =
      [CtrlOutput.statusEvent (str "busy"),
       CtrlOutput.shutdownReplyEvent false, CtrlOutput.rootCancel] :=
  shutdown_control_run [⟨str "kernel_info_request", none⟩]
    ⟨str "shutdown_request", some false⟩
    [⟨str "shutdown_request", some true⟩] false
    (by
      intro p hp
      rcases List.mem_singleton.mp hp with rfl
      decide)
    rfl rfl

/-! ### C8: user expressions -/

/-- Evaluator state reached after the first i user expressions. -/
def ueStateAt {σ : Type} (evalF : σ → Str → Except Str Str × σ) :
    σ → List (Str × Str) → Nat → σ
  | st, _, 0 => st
  | st, [], _ + 1 => st
  | st, (_, expr) :: rest, i + 1 => ueStateAt evalF (evalF st expr).2 rest i

/-- C8: user expressions are evaluated independently in order: the
result map carries exactly the names of the input map in order; entry i
is the error-placeholder bundle exactly when evaluating expression i (in
the state reached after the first i evaluations) fails, and the
text/plain bundle of the display value otherwise — so one failure never
aborts the batch nor touches the other names; on the success path of the
main code the reply carries this map for the request's string-valued
user_expressions object. -/
theorem user_expressions_independent {σ : Type}
    (evalF : σ → Str → Except Str Str × σ) (st : σ)
    (exprs : List (Str × Str)) :
    (evaluate_user_expressions evalF st exprs).1.map Prod.fst =
      exprs.map Prod.fst ∧
    (∀ i, i < exprs.length →
      (evaluate_user_expressions evalF st exprs).1.getD i ([], []) =
        ((exprs.getD i ([], [])).1,
          match (evalF (ueStateAt evalF st exprs i)
              (exprs.getD i ([], [])).2).1 with
          | .ok v => okBundle v
          | .error _ => errBundle)) ∧
    (∀ (req : ExecuteRequest) (n : Nat) (v : Str) (st1 : σ),
      evalF st req.code = (Except.ok v, st1) →
      KernelOutput.reply (ExecuteReply.ok n
          (userExprResults evalF st1 req.user_expressions).1) ∈
        (handle_execute_request evalF st (some req) n).1) := by
  refine ⟨?_, ?_, ?_⟩
  · induction exprs generalizing st with
    | nil => simp [evaluate_user_expressions]
    | cons p rest ih =>
      rcases p with ⟨name, expr⟩
      rcases hev : evalF st expr with ⟨r, st1⟩
      rcases heue : evaluate_user_expressions evalF st1 rest with ⟨rs, st2⟩
      have := ih st1
      rw [heue] at this
      rcases r with err | v <;>
        simp [evaluate_user_expressions, hev, heue, this]
  · induction exprs generalizing st with
    | nil =>
      intro i hi
      exact absurd hi (Nat.not_lt_zero i)
    | cons p rest ih =>
      intro i hi
      rcases p with ⟨name, expr⟩
      rcases hev : evalF st expr with ⟨r, st1⟩
      rcases heue : evaluate_user_expressions evalF st1 rest with ⟨rs, st2⟩
      cases i with
      | zero =>
        rcases r with err | v <;>
          simp [evaluate_user_expressions, hev, heue, ueStateAt]
      | succ j =>
        have hj : j < rest.length := by
          simp only [List.length_cons] at hi
          omega
        have hrec := ih st1 j hj
        rw [heue] at hrec
        rcases r with err | v <;>
          simpa [evaluate_user_expressions, hev, heue, ueStateAt] using hrec
  · intro req n v st1 hev
    rcases huer : userExprResults evalF st1 req.user_expressions with ⟨ue, st2⟩
    by_cases hsil : req.silent <;>
      simp [handle_execute_request, hev, huer, hsil]

/-- Evaluation engine stub failing exactly on the code bad. -/
def mixedEval : Unit → Str → Except Str Str × Unit :=
  fun u c =>
    if c = str "bad" then (Except.error (str "boom"), u)
    else (Except.ok (str "7"), u)

/-- C8, witness: three user expressions of which the middle one fails:
all three names are present in order and the middle entry is the error
placeholder. -/
theorem user_expressions_independent_witness :
    (evaluate_user_expressions mixedEval ()
      [(str "a", str "1"), (str "b", str "bad"), (str "c", str "2")]).1.map
        Prod.fst =
      [(str "a", str "1"), (str "b", str "bad"), (str "c", str "2")].map
        Prod.fst ∧
    (evaluate_user_expressions mixedEval ()
      [(str "a", str "1"), (str "b", str "bad"), (str "c", str "2")]).1.getD 1
        ([], []) = (str "b", errBundle) :=
  ⟨(user_expressions_independent mixedEval ()
      [(str "a", str "1"), (str "b", str "bad"), (str "c", str "2")]).1,
    Eq.trans
      ((user_expressions_independent mixedEval ()
        [(str "a", str "1"), (str "b", str "bad"), (str "c", str "2")]).2.1 1
        (by decide))
      (by decide)⟩
